import Mathlib

/-!
Verification of the WhatsApp group-link scraper service
(`src/api/api_whatsapp.js`).

The service is embedded shallowly:

* Outbound HTTP fetching plus HTML parsing is abstracted as a `Fetch`
  oracle `String → Option Doc`: `none` models a fetch (or parse) that
  throws, `some doc` a successfully fetched and parsed document.  A `Doc`
  records exactly the query results the source code asks a page for:
  the group cards (`$("div.card.group, div.card.group.vip")`, with the
  first `a[href]` of each card body), the detail-page call-to-action
  `data-url` (`.card-body` / `a.btn.btn-success.btn-block[data-url]`),
  and the category anchors
  (`.row-categories .col-category a.category`).
* The `while` loop of `getWhatsappGroupLinks` is not structurally
  terminating (and indeed need not terminate), so it is embedded with an
  explicit fuel parameter; `RunResult.outOfFuel` marks a run that was
  still going when the fuel ran out, `RunResult.done` a run that
  returned normally.
* Every function also returns the trace of URLs it fetched, so that
  "no network call is made" is expressible as an empty trace.
* JS numbers reaching `parseInt` are modelled as `Option Int`
  (`none` = `NaN`); JS string truthiness (`!s`, `s || d`) is modelled
  explicitly (`""` is falsy).
-/

namespace ApiWhatsapp

/-- Does `pat` occur at the start of `s` (on character lists)? -/
def startsAux : List Char → List Char → Bool
  | _, [] => true
  | [], _ :: _ => false
  | c :: s, d :: pat => c == d && startsAux s pat

/-- Does `pat` occur as a contiguous sublist of `s`? -/
def subAux (pat : List Char) : List Char → Bool
  | [] => pat.isEmpty
  | c :: rest => startsAux (c :: rest) pat || subAux pat rest

/-- JS `s.startsWith(pat)`. -/
def strStartsWith (s pat : String) : Bool :=
  startsAux s.data pat.data

/-- JS `s.endsWith(pat)`. -/
def strEndsWith (s pat : String) : Bool :=
  startsAux s.data.reverse pat.data.reverse

/-- JS `String.prototype.includes` for a non-empty pattern. -/
def strContains (s pat : String) : Bool :=
  subAux pat.data s.data

/-- JS `String.prototype.trim`: strip leading and trailing whitespace. -/
def strTrim (s : String) : String :=
  String.mk
    (((s.data.dropWhile Char.isWhitespace).reverse.dropWhile
        Char.isWhitespace).reverse)

/-- JS `baseUrl.replace(/\/$/, "")`: remove one trailing slash. -/
def stripTrailingSlash (s : String) : String :=
  if strEndsWith s "/" then String.mk s.data.dropLast else s

/-- JS `href.replace(/^\//, "")`: remove one leading slash. -/
def stripLeadingSlash (s : String) : String :=
  match s.data with
  | '/' :: t => String.mk t
  | _ => s

/-- One group card of a listing page: `bodyHref` is the `href` of the
first `a[href]` inside the card's `div.card-body` (`none` when the card
body has no anchor, in which case the source does `continue`). -/
structure Card where
  bodyHref : Option String
deriving DecidableEq, Repr

/-- One category anchor (`a.category`) of the home page: `nameText` is
the raw text of its nested `.category-name` element (the source trims
it), `href` its `href` attribute (`none` when absent). -/
structure CatAnchor where
  nameText : String
  href : Option String
deriving DecidableEq, Repr

/-- A fetched-and-parsed HTML document, reduced to the three queries the
source performs on documents. -/
structure Doc where
  groupCards : List Card
  ctaDataUrl : Option String
  catAnchors : List CatAnchor
deriving DecidableEq, Repr

/-- The fetch collaborator (`axios.get` + `cheerio.load`): `none` models
a request that throws. -/
abbrev Fetch := String → Option Doc

/-- `currentUrl` construction (lines 39–41): if `baseUrl` contains
`"/page/"` append a path segment, otherwise a query parameter. -/
def pageUrl (baseUrl : String) (pageCounter : Nat) : String :=
  if strContains baseUrl "/page/" then
    baseUrl ++ "/page/" ++ toString pageCounter
  else
    baseUrl ++ "?page=" ++ toString pageCounter

/-- Detail-page URL resolution (lines 60–63): an href starting with
`"http"` is used unchanged, otherwise it is joined to the base URL with
one trailing/leading slash stripped. -/
def resolveHref (baseUrl href : String) : String :=
  if strStartsWith href "http" then href
  else stripTrailingSlash baseUrl ++ "/" ++ stripLeadingSlash href

/-- Processing of one card (lines 55–79): extract the href, resolve it,
fetch the detail page (failure ⇒ skip), look up the call-to-action
`data-url` and keep it iff it contains `"chat.whatsapp.com"`.  Returns
the link to push (if any) and the list of URLs fetched. -/
def processCard (fetch : Fetch) (baseUrl : String) (card : Card) :
    Option String × List String :=
  match card.bodyHref with
  | none => (none, [])
  | some href =>
    let detailPageUrl := resolveHref baseUrl href
    match fetch detailPageUrl with
    | none => (none, [detailPageUrl])
    | some doc =>
      match doc.ctaDataUrl with
      | none => (none, [detailPageUrl])
      | some u =>
        (if strContains u "chat.whatsapp.com" then some u else none,
         [detailPageUrl])

/-- Append a card's extracted link (if any) to the accumulator. -/
def pushLink (acc : List String) : Option String → List String
  | some u => acc ++ [u]
  | none => acc

/-- The `for` loop over one page's cards (lines 50–80): process cards in
order while the accumulator is still short of the target.  Returns the
new accumulator and the fetch trace. -/
def processCards (fetch : Fetch) (baseUrl : String) (target : Nat) :
    List String → List Card → List String × List String
  | acc, [] => (acc, [])
  | acc, card :: rest =>
    if acc.length < target then
      let pc := processCard fetch baseUrl card
      let res := processCards fetch baseUrl target (pushLink acc pc.1) rest
      (res.1, pc.2 ++ res.2)
    else (acc, [])

/-- Outcome of a fuel-bounded run of the pagination loop. -/
inductive RunResult where
  | done (links : List String)
  | outOfFuel (links : List String)
deriving DecidableEq, Repr

/-- The links held by a run outcome. -/
def linksOf : RunResult → List String
  | .done links => links
  | .outOfFuel links => links

/-- The `while (allGroupLinks.length < numLinksToGet)` loop of
`getWhatsappGroupLinks` (lines 38–86), with explicit fuel.  A listing
fetch failure (`catch` → `break`) and an empty card list both end the
loop normally (`done`). -/
def collectLoop (fetch : Fetch) (baseUrl : String) (target : Nat) :
    Nat → List String → Nat → RunResult × List String
  | 0, acc, _ => (.outOfFuel acc, [])
  | fuel + 1, acc, pageCounter =>
    if acc.length < target then
      let currentUrl := pageUrl baseUrl pageCounter
      match fetch currentUrl with
      | none => (.done acc, [currentUrl])
      | some doc =>
        if doc.groupCards.length = 0 then (.done acc, [currentUrl])
        else
          let pr := processCards fetch baseUrl target acc doc.groupCards
          let res :=
            collectLoop fetch baseUrl target fuel pr.1 (pageCounter + 1)
          (res.1, currentUrl :: (pr.2 ++ res.2))
    else (.done acc, [])

/-- `getWhatsappGroupLinks(baseUrl, numLinksToGet)` (lines 34–89): run
the pagination loop from page 1 with an empty accumulator and return
`allGroupLinks.slice(0, numLinksToGet)`. -/
def getWhatsappGroupLinks (fetch : Fetch) (baseUrl : String)
    (numLinksToGet fuel : Nat) : RunResult × List String :=
  let r := collectLoop fetch baseUrl numLinksToGet fuel [] 1
  (match r.1 with
   | .done links => .done (links.take numLinksToGet)
   | .outOfFuel links => .outOfFuel links,
   r.2)

/-- A category pair as pushed by `getCategories`. -/
structure Category where
  name : String
  url : String
deriving DecidableEq, Repr

/-- The `.each` callback body of `getCategories` (lines 99–105): push
`{name, url}` when both the trimmed name and the href are non-empty (JS
truthiness: a missing attribute and the empty string are falsy). -/
def catStep (categories : List Category) (el : CatAnchor) : List Category :=
  let name := strTrim el.nameText
  match el.href with
  | none => categories
  | some url =>
    if name != "" && url != "" then
      categories ++ [{ name := name, url := url }]
    else categories

/-- `getCategories(baseUrl)` (lines 92–112): fetch the home page (any
failure is caught and yields `[]`), then run the `.each` push loop over
the category anchors in document order. -/
def getCategories (fetch : Fetch) (baseUrl : String) : List Category :=
  match fetch baseUrl with
  | none => []
  | some doc => doc.catAnchors.foldl catStep []

/-- Hex digit recogniser for `parseInt`'s `0x` form. -/
def isHexDigitChar (c : Char) : Bool :=
  c.isDigit || ('a' ≤ c && c ≤ 'f') || ('A' ≤ c && c ≤ 'F')

/-- Value of a hex digit. -/
def hexDigitVal (c : Char) : Nat :=
  if c.isDigit then c.toNat - 48
  else if 'a' ≤ c && c ≤ 'f' then c.toNat - 87
  else c.toNat - 55

/-- Decimal body of `parseInt`: longest digit run; `none` = `NaN`. -/
def decBody (sign : Int) (cs : List Char) : Option Int :=
  let ds := cs.takeWhile Char.isDigit
  if ds.isEmpty then none
  else some (sign * ((ds.foldl (fun a c => a * 10 + (c.toNat - 48)) 0 : Nat) : Int))

/-- Hex body of `parseInt` after an `0x`/`0X` prefix. -/
def hexBody (sign : Int) (cs : List Char) : Option Int :=
  let ds := cs.takeWhile isHexDigitChar
  if ds.isEmpty then none
  else some (sign * ((ds.foldl (fun a c => a * 16 + hexDigitVal c) 0 : Nat) : Int))

/-- JS `parseInt(s)` (radix unspecified): skip leading whitespace, read
an optional sign, then either an `0x`/`0X` hex literal or a decimal
digit run; `none` models `NaN`. -/
def parseIntJs (s : String) : Option Int :=
  let cs := s.data.dropWhile Char.isWhitespace
  let sc : Int × List Char :=
    match cs with
    | '-' :: t => (-1, t)
    | '+' :: t => (1, t)
    | _ => (1, cs)
  match sc.2 with
  | '0' :: 'x' :: t => hexBody sc.1 t
  | '0' :: 'X' :: t => hexBody sc.1 t
  | rest => decBody sc.1 rest

/-- The query parameters of a `/get_whatsapp_links` request, as the raw
strings Express exposes (`none` = parameter absent). -/
structure LinksRequest where
  base_url : Option String
  num_links : Option String
deriving DecidableEq, Repr

/-- The responses the `/get_whatsapp_links` handler can produce.  The
source's 500 branch is unreachable in this model because the embedded
collector is total; `pending` marks a run whose fuel ran out (in JS the
handler would still be awaiting the collector). -/
inductive LinksResponse where
  | badRequest
  | notFound
  | ok (links : List String)
  | pending
deriving DecidableEq, Repr

/-- JS `v || d` for an optional string: absent or empty is falsy. -/
def orElseJs (v : Option String) (d : String) : String :=
  match v with
  | none => d
  | some s => if s = "" then d else s

/-- Default base URL of both endpoints. -/
def defaultBaseUrl : String := "https://gruposwhats.app"

/-- `parseInt(req.query.num_links) || 5` (line 150): `NaN` (absent or
non-numeric) and `0` are falsy and give the default `5`. -/
def numLinksOf (q : Option String) : Int :=
  match q with
  | none => 5
  | some s =>
    match parseIntJs s with
    | none => 5
    | some n => if n = 0 then 5 else n

/-- The `/get_whatsapp_links` handler (lines 148–165): defaulting,
validation (`!baseUrl || numLinks <= 0` → 400), collection, empty-result
mapping to 404.  Returns the response paired with the trace of URLs
fetched while serving the request. -/
def handleGetWhatsappLinks (fetch : Fetch) (fuel : Nat)
    (req : LinksRequest) : LinksResponse × List String :=
  let baseUrl := orElseJs req.base_url defaultBaseUrl
  let numLinks := numLinksOf req.num_links
  if baseUrl = "" ∨ numLinks ≤ 0 then (.badRequest, [])
  else
    let r := getWhatsappGroupLinks fetch baseUrl numLinks.toNat fuel
    match r.1 with
    | .done links =>
      (if links.length = 0 then .notFound else .ok links, r.2)
    | .outOfFuel _ => (.pending, r.2)

/-- The link pushed (if any) for one card; first component of
`processCard`. -/
def cardLink (fetch : Fetch) (baseUrl : String) (card : Card) :
    Option String :=
  (processCard fetch baseUrl card).1

/-- The valid invite links listing page `p` yields (empty when its fetch
fails). -/
def pageLinks (fetch : Fetch) (baseUrl : String) (p : Nat) : List String :=
  match fetch (pageUrl baseUrl p) with
  | none => []
  | some doc => doc.groupCards.filterMap (cardLink fetch baseUrl)

/-- Pagination ends at page `p`: its fetch fails or it has no group
cards. -/
def pagesEnd (fetch : Fetch) (baseUrl : String) (p : Nat) : Bool :=
  match fetch (pageUrl baseUrl p) with
  | none => true
  | some doc => doc.groupCards.isEmpty

/-- All valid invite links on pages `1..n`, in order. -/
def linksThrough (fetch : Fetch) (baseUrl : String) : Nat → List String
  | 0 => []
  | n + 1 => linksThrough fetch baseUrl n ++ pageLinks fetch baseUrl (n + 1)

/-- `N` is the first page at which pagination ends. -/
def firstEndPage (fetch : Fetch) (baseUrl : String) (N : Nat) : Prop :=
  1 ≤ N ∧ pagesEnd fetch baseUrl N = true ∧
    ∀ p, p < N → 1 ≤ p → pagesEnd fetch baseUrl p = false

/-- The number of valid invite links the site yields before pagination
ends (ending at page `N`): the links of pages `1..N-1`. -/
def availableLinks (fetch : Fetch) (baseUrl : String) (N : Nat) : Nat :=
  (linksThrough fetch baseUrl (N - 1)).length

/-- After one leading alphabetic character: more scheme characters and
then the literal `"://"`. -/
def schemeAux : List Char → Bool
  | ':' :: '/' :: '/' :: _ => true
  | c :: rest => c.isAlpha && schemeAux rest
  | [] => false

/-- Modelled from the spec (§4.1 step 2e): "if it already has a scheme"
— a URI scheme, i.e. a non-empty run of alphabetic characters followed
by `"://"`.  Used only to compare the spec's resolution rule with the
code's. -/
def specHasScheme (href : String) : Bool :=
  match href.data with
  | c :: rest => c.isAlpha && schemeAux rest
  | [] => false

/-- Modelled from the spec (§4.1 step 2e): the spec's resolution rule,
keying on "already has a scheme" where the code keys on
`startsWith("http")`. -/
def specResolveHref (baseUrl href : String) : String :=
  if specHasScheme href then href
  else stripTrailingSlash baseUrl ++ "/" ++ stripLeadingSlash href

/-- An anchor passes `getCategories`' inclusion test: trimmed name and
href both present and non-empty. -/
def catKeep (a : CatAnchor) : Bool :=
  strTrim a.nameText != "" && a.href.getD "" != ""

/-- The category pair an anchor yields. -/
def catOf (a : CatAnchor) : Category :=
  { name := strTrim a.nameText, url := a.href.getD "" }

/-- Listing page of the two-card demo site used to witness C2. -/
def docC2page1 : Doc := ⟨[⟨some "g1"⟩, ⟨some "g2"⟩], none, []⟩

/-- Detail page with a valid invite link (C2 demo site). -/
def docC2g1 : Doc := ⟨[], some "https://chat.whatsapp.com/AAA", []⟩

/-- Detail page whose call-to-action is not an invite (C2 demo site). -/
def docC2g2 : Doc := ⟨[], some "https://x.test/no", []⟩

/-- Demo site for C2: one listing page with two cards, then the end of
pagination; only the first card yields a valid invite link. -/
def fetchC2 : Fetch := fun url =>
  if url = "https://w.test?page=1" then some docC2page1
  else if url = "https://w.test/g1" then some docC2g1
  else if url = "https://w.test/g2" then some docC2g2
  else none

/-- Listing page of the demo site used to witness C3. -/
def docC3page1 : Doc := ⟨[⟨some "g"⟩], none, []⟩

/-- Detail page with a valid invite link (C3 demo site). -/
def docC3g : Doc := ⟨[], some "https://chat.whatsapp.com/ZZZ", []⟩

/-- Detail page whose call-to-action `data-url` lacks the invite-domain
marker (C3 demo site). -/
def docC3bad : Doc := ⟨[], some "https://bad.test/x", []⟩

/-- Demo site for C3. -/
def fetchC3 : Fetch := fun url =>
  if url = "https://w3.test?page=1" then some docC3page1
  else if url = "https://w3.test/g" then some docC3g
  else if url = "https://w3.test/h" then some docC3bad
  else none

/-- Home page for the C7 witness: one valid anchor, one with a
whitespace-only name, one without an href, one with an empty href. -/
def docC7 : Doc :=
  ⟨[], none,
   [⟨" Games ", some "/cat/games"⟩, ⟨"  ", some "/x"⟩,
    ⟨"Music", none⟩, ⟨"Pop", some ""⟩]⟩

/-- Demo home page fetch for C7. -/
def fetchC7 : Fetch := fun url =>
  if url = "https://h.test" then some docC7 else none

/-- The page every URL of the C9 adversarial site serves: one group
card, and a call-to-action `data-url` without the invite-domain
marker. -/
def badDoc : Doc := ⟨[⟨some "g"⟩], some "https://bad.test/x", []⟩

/-- The C9 adversarial fetch collaborator: every fetch succeeds and
serves `badDoc`, so every listing page has a card and no detail page
ever yields an invite link. -/
def badFetch : Fetch := fun _ => some badDoc

/-- Unfolding: processing an empty card list changes nothing. -/
theorem processCards_nil (fetch : Fetch) (baseUrl : String) (target : Nat)
    (acc : List String) :
    processCards fetch baseUrl target acc [] = (acc, []) := rfl

/-- Unfolding: with room left, one card is processed and the rest
follow. -/
theorem processCards_cons (fetch : Fetch) (baseUrl : String) (target : Nat)
    (acc : List String) (card : Card) (rest : List Card)
    (hlt : acc.length < target) :
    processCards fetch baseUrl target acc (card :: rest) =
      ((processCards fetch baseUrl target
          (pushLink acc (cardLink fetch baseUrl card)) rest).1,
       (processCard fetch baseUrl card).2 ++
         (processCards fetch baseUrl target
           (pushLink acc (cardLink fetch baseUrl card)) rest).2) := by
  simp [processCards, cardLink, hlt]

/-- Unfolding: once the accumulator reached the target the card loop
stops. -/
theorem processCards_full (fetch : Fetch) (baseUrl : String) (target : Nat)
    (acc : List String) (card : Card) (rest : List Card)
    (hge : ¬ acc.length < target) :
    processCards fetch baseUrl target acc (card :: rest) = (acc, []) := by
  simp [processCards, hge]

/-- Unfolding: out of fuel. -/
theorem collectLoop_zero (fetch : Fetch) (baseUrl : String) (target : Nat)
    (acc : List String) (p : Nat) :
    collectLoop fetch baseUrl target 0 acc p = (.outOfFuel acc, []) := rfl

/-- Unfolding: the `while` condition fails, the loop returns. -/
theorem collectLoop_full (fetch : Fetch) (baseUrl : String) (target fuel : Nat)
    (acc : List String) (p : Nat) (hge : ¬ acc.length < target) :
    collectLoop fetch baseUrl target (fuel + 1) acc p = (.done acc, []) := by
  simp [collectLoop, hge]

/-- Unfolding: a failed listing fetch breaks the loop. -/
theorem collectLoop_fetch_fail (fetch : Fetch) (baseUrl : String)
    (target fuel : Nat) (acc : List String) (p : Nat)
    (hlt : acc.length < target) (hf : fetch (pageUrl baseUrl p) = none) :
    collectLoop fetch baseUrl target (fuel + 1) acc p =
      (.done acc, [pageUrl baseUrl p]) := by
  simp [collectLoop, hlt, hf]

/-- Unfolding: a listing page without group cards breaks the loop. -/
theorem collectLoop_no_cards (fetch : Fetch) (baseUrl : String)
    (target fuel : Nat) (acc : List String) (p : Nat) (doc : Doc)
    (hlt : acc.length < target) (hf : fetch (pageUrl baseUrl p) = some doc)
    (hz : doc.groupCards = []) :
    collectLoop fetch baseUrl target (fuel + 1) acc p =
      (.done acc, [pageUrl baseUrl p]) := by
  simp [collectLoop, hlt, hf, hz]

/-- Unfolding: a listing page with cards is processed and the loop moves
to the next page. -/
theorem collectLoop_step (fetch : Fetch) (baseUrl : String)
    (target fuel : Nat) (acc : List String) (p : Nat) (doc : Doc)
    (hlt : acc.length < target) (hf : fetch (pageUrl baseUrl p) = some doc)
    (hz : doc.groupCards ≠ []) :
    collectLoop fetch baseUrl target (fuel + 1) acc p =
      ((collectLoop fetch baseUrl target fuel
          (processCards fetch baseUrl target acc doc.groupCards).1 (p + 1)).1,
       pageUrl baseUrl p ::
         ((processCards fetch baseUrl target acc doc.groupCards).2 ++
          (collectLoop fetch baseUrl target fuel
            (processCards fetch baseUrl target acc doc.groupCards).1
            (p + 1)).2)) := by
  have hz' : doc.groupCards.length ≠ 0 := by
    intro h; exact hz (List.length_eq_zero.mp h)
  simp [collectLoop, hlt, hf, hz']

/-- Taking `n` of the left summand first does not change an `n`-element
window. -/
theorem take_append_take {α : Type} (l m : List α) (n : Nat) :
    ((l.take n) ++ m).take n = (l ++ m).take n := by
  rw [List.take_append_eq_append_take, List.take_append_eq_append_take,
    List.take_take, List.length_take]
  have h : n ⊓ n = n := min_self n
  rw [h]
  have h2 : n - n ⊓ l.length = n - l.length := by
    rcases Nat.le_total l.length n with hle | hle
    · rw [Nat.min_eq_right hle]
    · rw [Nat.min_eq_left hle]; omega
  rw [h2]

/-- The card loop computes a `target`-bounded window over the links its
cards yield: starting from a not-yet-full accumulator it returns the
first `target` elements of the accumulator followed by all card
links. -/
theorem processCards_take (fetch : Fetch) (baseUrl : String) (target : Nat) :
    ∀ (cards : List Card) (acc : List String), acc.length ≤ target →
      (processCards fetch baseUrl target acc cards).1 =
        (acc ++ cards.filterMap (cardLink fetch baseUrl)).take target := by
  intro cards
  induction cards with
  | nil =>
    intro acc h
    rw [processCards_nil]
    simp [List.take_of_length_le, h]
  | cons card rest ih =>
    intro acc h
    by_cases hlt : acc.length < target
    · rw [processCards_cons fetch baseUrl target acc card rest hlt]
      cases hc : cardLink fetch baseUrl card with
      | none =>
        rw [List.filterMap_cons]
        simp only [hc, pushLink]
        exact ih acc h
      | some u =>
        rw [List.filterMap_cons]
        simp only [hc, pushLink]
        rw [ih (acc ++ [u]) (by simp; omega)]
        simp [List.append_assoc]
    · rw [processCards_full fetch baseUrl target acc card rest hlt]
      have heq : acc.length = target := by omega
      rw [← heq, List.take_append_of_le_length le_rfl, List.take_length]

/-- The card loop never grows the accumulator past the target. -/
theorem processCards_len_le (fetch : Fetch) (baseUrl : String)
    (target : Nat) (cards : List Card) (acc : List String)
    (h : acc.length ≤ target) :
    (processCards fetch baseUrl target acc cards).1.length ≤ target := by
  rw [processCards_take fetch baseUrl target cards acc h, List.length_take]
  omega

/-- Whatever the fuel, the pagination loop keeps the accumulator within
the target. -/
theorem collectLoop_le (fetch : Fetch) (baseUrl : String) (target : Nat) :
    ∀ (fuel : Nat) (acc : List String) (p : Nat), acc.length ≤ target →
      (linksOf (collectLoop fetch baseUrl target fuel acc p).1).length ≤
        target := by
  intro fuel
  induction fuel with
  | zero =>
    intro acc p h
    rw [collectLoop_zero]
    exact h
  | succ f ih =>
    intro acc p h
    by_cases hlt : acc.length < target
    · cases hf : fetch (pageUrl baseUrl p) with
      | none =>
        rw [collectLoop_fetch_fail fetch baseUrl target f acc p hlt hf]
        exact h
      | some doc =>
        by_cases hz : doc.groupCards = []
        · rw [collectLoop_no_cards fetch baseUrl target f acc p doc hlt hf hz]
          exact h
        · rw [collectLoop_step fetch baseUrl target f acc p doc hlt hf hz]
          exact ih _ (p + 1)
            (processCards_len_le fetch baseUrl target doc.groupCards acc
              (le_of_lt hlt))
    · rw [collectLoop_full fetch baseUrl target f acc p hlt]
      exact h

/-- Unfolding: `pagesEnd` at a failed fetch. -/
theorem pagesEnd_none (fetch : Fetch) (baseUrl : String) (p : Nat)
    (h : fetch (pageUrl baseUrl p) = none) :
    pagesEnd fetch baseUrl p = true := by
  simp [pagesEnd, h]

/-- Unfolding: `pagesEnd` at a fetched page. -/
theorem pagesEnd_some (fetch : Fetch) (baseUrl : String) (p : Nat)
    (doc : Doc) (h : fetch (pageUrl baseUrl p) = some doc) :
    pagesEnd fetch baseUrl p = doc.groupCards.isEmpty := by
  simp [pagesEnd, h]

/-- Unfolding: links of pages `1..n+1`. -/
theorem linksThrough_succ (fetch : Fetch) (baseUrl : String) (n : Nat) :
    linksThrough fetch baseUrl (n + 1) =
      linksThrough fetch baseUrl n ++ pageLinks fetch baseUrl (n + 1) := rfl

/-- `linksThrough` over more pages extends the shorter run. -/
theorem linksThrough_add (fetch : Fetch) (baseUrl : String) :
    ∀ (k m : Nat), ∃ s, linksThrough fetch baseUrl (m + k) =
      linksThrough fetch baseUrl m ++ s := by
  intro k
  induction k with
  | zero => exact fun m => ⟨[], by simp⟩
  | succ k ih =>
    intro m
    obtain ⟨s, hs⟩ := ih m
    exact ⟨s ++ pageLinks fetch baseUrl (m + k + 1),
      by rw [← Nat.add_assoc, linksThrough_succ, hs, List.append_assoc]⟩

/-- Monotonicity of `linksThrough` as a run of pages. -/
theorem linksThrough_mono (fetch : Fetch) (baseUrl : String) {m n : Nat}
    (h : m ≤ n) :
    ∃ s, linksThrough fetch baseUrl n = linksThrough fetch baseUrl m ++ s := by
  obtain ⟨k, rfl⟩ := Nat.exists_eq_add_of_le h
  exact linksThrough_add fetch baseUrl k m

/-- Main loop invariant: on a site whose pagination first ends at page
`N`, a loop entered at page `p ≤ N` holding the `target`-window of the
links of pages `1..p-1` terminates with the `target`-window of the links
of pages `1..N-1`, provided the fuel covers the remaining pages. -/
theorem collectLoop_firstEnd (fetch : Fetch) (baseUrl : String)
    (target N : Nat) (hN : firstEndPage fetch baseUrl N) :
    ∀ (fuel p : Nat) (acc : List String), 1 ≤ p → p ≤ N →
      N + 1 - p ≤ fuel →
      acc = (linksThrough fetch baseUrl (p - 1)).take target →
      (collectLoop fetch baseUrl target fuel acc p).1 =
        RunResult.done ((linksThrough fetch baseUrl (N - 1)).take target) := by
  intro fuel
  induction fuel with
  | zero =>
    intro p acc h1 h2 h3 hacc
    omega
  | succ f ih =>
    intro p acc h1 h2 h3 hacc
    by_cases hlt : acc.length < target
    · rcases Nat.lt_or_ge p N with hpN | hpN
      · have hend : pagesEnd fetch baseUrl p = false := hN.2.2 p hpN h1
        cases hf : fetch (pageUrl baseUrl p) with
        | none => rw [pagesEnd_none fetch baseUrl p hf] at hend; simp at hend
        | some doc =>
          rw [pagesEnd_some fetch baseUrl p doc hf] at hend
          have hz : doc.groupCards ≠ [] := by
            intro hnil; rw [hnil] at hend; simp at hend
          rw [collectLoop_step fetch baseUrl target f acc p doc hlt hf hz]
          have hpl : pageLinks fetch baseUrl p =
              doc.groupCards.filterMap (cardLink fetch baseUrl) := by
            simp [pageLinks, hf]
          have hacc2 : (processCards fetch baseUrl target acc
              doc.groupCards).1 =
              (linksThrough fetch baseUrl p).take target := by
            rw [processCards_take fetch baseUrl target doc.groupCards acc
              (le_of_lt hlt), hacc, take_append_take, ← hpl]
            have hp : p - 1 + 1 = p := by omega
            conv_rhs => rw [← hp, linksThrough_succ, hp]
          exact ih (p + 1) _ (by omega) (by omega) (by omega)
            (by rw [hacc2, Nat.add_sub_cancel])
      · have hpN' : p = N := by omega
        subst hpN'
        have hend : pagesEnd fetch baseUrl p = true := hN.2.1
        cases hf : fetch (pageUrl baseUrl p) with
        | none =>
          rw [collectLoop_fetch_fail fetch baseUrl target f acc p hlt hf]
          rw [hacc]
        | some doc =>
          rw [pagesEnd_some fetch baseUrl p doc hf] at hend
          have hz : doc.groupCards = [] := by simpa using hend
          rw [collectLoop_no_cards fetch baseUrl target f acc p doc hlt hf hz]
          rw [hacc]
    · rw [collectLoop_full fetch baseUrl target f acc p hlt]
      have hlen : target ≤ (linksThrough fetch baseUrl (p - 1)).length := by
        have hlacc : acc.length =
            min target (linksThrough fetch baseUrl (p - 1)).length := by
          rw [hacc, List.length_take]
        rcases Nat.le_total target (linksThrough fetch baseUrl (p-1)).length
          with hle | hle
        · exact hle
        · rw [Nat.min_eq_right hle] at hlacc; omega
      obtain ⟨s, hs⟩ :=
        linksThrough_mono fetch baseUrl (by omega : p - 1 ≤ N - 1)
      rw [hacc, hs, List.take_append_of_le_length hlen]

/-- A card only ever yields a link containing the invite-domain
marker. -/
theorem processCard_marker (fetch : Fetch) (baseUrl : String) (card : Card)
    (u : String) (h : (processCard fetch baseUrl card).1 = some u) :
    strContains u "chat.whatsapp.com" = true := by
  cases hb : card.bodyHref with
  | none => simp [processCard, hb] at h
  | some href =>
    simp only [processCard, hb] at h
    cases hf : fetch (resolveHref baseUrl href) with
    | none => simp [hf] at h
    | some doc =>
      simp only [hf] at h
      cases hc : doc.ctaDataUrl with
      | none => simp [hc] at h
      | some v =>
        simp only [hc] at h
        by_cases hm : strContains v "chat.whatsapp.com" = true
        · simp only [hm, if_true] at h
          cases h
          exact hm
        · rw [if_neg hm] at h
          simp at h

/-- Links added by the card loop all carry the invite-domain marker. -/
theorem processCards_mem_inv (fetch : Fetch) (baseUrl : String)
    (target : Nat) :
    ∀ (cards : List Card) (acc : List String) (x : String),
      x ∈ (processCards fetch baseUrl target acc cards).1 →
      x ∈ acc ∨ strContains x "chat.whatsapp.com" = true := by
  intro cards
  induction cards with
  | nil =>
    intro acc x hx
    rw [processCards_nil] at hx
    exact Or.inl hx
  | cons card rest ih =>
    intro acc x hx
    by_cases hlt : acc.length < target
    · rw [processCards_cons fetch baseUrl target acc card rest hlt] at hx
      cases hc : cardLink fetch baseUrl card with
      | none =>
        rw [hc] at hx
        exact ih acc x hx
      | some u =>
        rw [hc] at hx
        rcases ih (acc ++ [u]) x hx with hmem | hmark
        · rcases List.mem_append.mp hmem with h | h
          · exact Or.inl h
          · have hu : x = u := by simpa using h
            subst hu
            exact Or.inr (processCard_marker fetch baseUrl card x hc)
        · exact Or.inr hmark
    · rw [processCards_full fetch baseUrl target acc card rest hlt] at hx
      exact Or.inl hx

/-- Links held by the pagination loop all carry the invite-domain
marker (beyond what was already accumulated). -/
theorem collectLoop_mem_inv (fetch : Fetch) (baseUrl : String)
    (target : Nat) :
    ∀ (fuel : Nat) (acc : List String) (p : Nat) (x : String),
      x ∈ linksOf (collectLoop fetch baseUrl target fuel acc p).1 →
      x ∈ acc ∨ strContains x "chat.whatsapp.com" = true := by
  intro fuel
  induction fuel with
  | zero =>
    intro acc p x hx
    rw [collectLoop_zero] at hx
    exact Or.inl hx
  | succ f ih =>
    intro acc p x hx
    by_cases hlt : acc.length < target
    · cases hf : fetch (pageUrl baseUrl p) with
      | none =>
        rw [collectLoop_fetch_fail fetch baseUrl target f acc p hlt hf] at hx
        exact Or.inl hx
      | some doc =>
        by_cases hz : doc.groupCards = []
        · rw [collectLoop_no_cards fetch baseUrl target f acc p doc hlt hf hz]
            at hx
          exact Or.inl hx
        · rw [collectLoop_step fetch baseUrl target f acc p doc hlt hf hz]
            at hx
          rcases ih _ (p + 1) x hx with hmem | hmark
          · exact processCards_mem_inv fetch baseUrl target
              doc.groupCards acc x hmem
          · exact Or.inr hmark
    · rw [collectLoop_full fetch baseUrl target f acc p hlt] at hx
      exact Or.inl hx

/-- The push loop of `getCategories` is the filter-map of its inclusion
test. -/
theorem catStep_fold :
    ∀ (anchors : List CatAnchor) (acc : List Category),
      anchors.foldl catStep acc =
        acc ++ (anchors.filter catKeep).map catOf := by
  intro anchors
  induction anchors with
  | nil => intro acc; simp
  | cons a rest ih =>
    intro acc
    rw [List.foldl_cons, List.filter_cons]
    cases ha : a.href with
    | none =>
      have hstep : catStep acc a = acc := by simp [catStep, ha]
      have hkeep : catKeep a = false := by simp [catKeep, ha]
      rw [hstep, hkeep, ih acc]
      simp
    | some url =>
      by_cases hc : (strTrim a.nameText != "" && url != "") = true
      · have hstep : catStep acc a = acc ++ [catOf a] := by
          simp only [catStep, ha, hc, if_true]
          simp [catOf, ha]
        have hkeep : catKeep a = true := by
          simpa [catKeep, ha] using hc
        rw [hstep, hkeep, ih (acc ++ [catOf a])]
        simp
      · have hstep : catStep acc a = acc := by
          simp only [catStep, ha]
          rw [if_neg]
          simpa using hc
        have hkeep : catKeep a = false := by
          simp only [catKeep, ha, Option.getD_some]
          simpa using hc
        rw [hstep, hkeep, ih acc]
        simp

/-- The defaulted base URL is never the empty string, so its JS
falsiness check never fires. -/
theorem orElseJs_default_ne (v : Option String) :
    orElseJs v defaultBaseUrl ≠ "" := by
  cases v with
  | none => decide
  | some s =>
    dsimp only [orElseJs]
    split
    · decide
    · assumption

/-- Claim C1, counterexample: a request whose `num_links` denotes the
value `0` (which is `≤ 0`) is not answered with 400 — `parseInt(...) ||
5` replaces `0` by the default `5`, the collector runs (here against a
fetch that always fails), one listing URL is fetched, and the response
is 404. -/
theorem c1_counterexample :
    parseIntJs "0" = some 0 ∧
    (handleGetWhatsappLinks (fun _ => none) 1
        { base_url := none, num_links := some "0" }).1 ≠
      LinksResponse.badRequest ∧
    (handleGetWhatsappLinks (fun _ => none) 1
        { base_url := none, num_links := some "0" }).2 =
      ["https://gruposwhats.app?page=1"] := by
  refine ⟨by decide, by decide, by decide⟩

/-- Claim C1, amended: for every request whose `num_links` parses to a
strictly negative value, the endpoint responds 400 (invalid parameters)
with an empty fetch trace, i.e. before any network call is made. -/
theorem c1_rejects_negative (fetch : Fetch) (fuel : Nat)
    (req : LinksRequest) (s : String) (n : Int)
    (h1 : req.num_links = some s) (h2 : parseIntJs s = some n)
    (h3 : n < 0) :
    handleGetWhatsappLinks fetch fuel req =
      (LinksResponse.badRequest, []) := by
  have hn : numLinksOf req.num_links = n := by
    have hne : ¬ n = 0 := by omega
    simp [numLinksOf, h1, h2, hne]
  simp only [handleGetWhatsappLinks, hn]
  rw [if_pos (Or.inr (by omega))]

/-- Witness for C1 at `num_links = "-2"`. -/
theorem c1_witness :
    handleGetWhatsappLinks (fun _ => none) 1
        { base_url := none, num_links := some "-2" } =
      (LinksResponse.badRequest, []) :=
  c1_rejects_negative (fun _ => none) 1 _ "-2" (-2) rfl (by decide)
    (by decide)

/-- Claim C4: a fetch failure on a listing page terminates the
pagination loop at once with the accumulated links (a normal `done`
return, no error), while a fetch failure on one card's detail page
skips exactly that card — accumulator unchanged, the failed URL still
traced — and processing continues with the remaining cards. -/
theorem c4_failure_isolation :
    (∀ (fetch : Fetch) (baseUrl : String) (target fuel : Nat)
        (acc : List String) (p : Nat),
      acc.length < target → fetch (pageUrl baseUrl p) = none →
      collectLoop fetch baseUrl target (fuel + 1) acc p =
        (RunResult.done acc, [pageUrl baseUrl p])) ∧
    (∀ (fetch : Fetch) (baseUrl : String) (target : Nat)
        (acc : List String) (card : Card) (rest : List Card)
        (href : String),
      acc.length < target → card.bodyHref = some href →
      fetch (resolveHref baseUrl href) = none →
      (processCards fetch baseUrl target acc (card :: rest)).1 =
        (processCards fetch baseUrl target acc rest).1 ∧
      (processCards fetch baseUrl target acc (card :: rest)).2 =
        resolveHref baseUrl href ::
          (processCards fetch baseUrl target acc rest).2) := by
  constructor
  · intro fetch baseUrl target fuel acc p hlt hf
    exact collectLoop_fetch_fail fetch baseUrl target fuel acc p hlt hf
  · intro fetch baseUrl target acc card rest href hlt hh hf
    have hpc : processCard fetch baseUrl card =
        (none, [resolveHref baseUrl href]) := by
      simp [processCard, hh, hf]
    have hcl : cardLink fetch baseUrl card = none := by
      simp [cardLink, hpc]
    rw [processCards_cons fetch baseUrl target acc card rest hlt, hcl, hpc]
    constructor <;> simp [pushLink]

/-- Witness for C4: a failing listing fetch returns the accumulator; a
failing detail fetch skips the card. -/
theorem c4_witness :
    collectLoop (fun _ => none) "b" 2 1 ["l"] 1 =
      (RunResult.done ["l"], [pageUrl "b" 1]) ∧
    (processCards (fun _ => none) "b" 3 [] [⟨some "h"⟩]).1 =
      (processCards (fun _ => none) "b" 3 [] []).1 :=
  ⟨c4_failure_isolation.1 (fun _ => none) "b" 2 0 ["l"] 1 (by decide) rfl,
   (c4_failure_isolation.2 (fun _ => none) "b" 3 [] ⟨some "h"⟩ [] "h"
      (by decide) rfl rfl).1⟩

/-- Claim C5: when the first listing page is fetched and yields zero
group cards, the collector returns the empty sequence (for any positive
target), and the endpoint maps the empty collection to a 404
response. -/
theorem c5_empty_first_page (fetch : Fetch) (fuel : Nat)
    (req : LinksRequest) (d : Doc)
    (h0 : 0 < numLinksOf req.num_links) (h1 : 0 < fuel)
    (h2 : fetch (pageUrl (orElseJs req.base_url defaultBaseUrl) 1) = some d)
    (h3 : d.groupCards = []) :
    (getWhatsappGroupLinks fetch (orElseJs req.base_url defaultBaseUrl)
        (numLinksOf req.num_links).toNat fuel).1 = RunResult.done [] ∧
    (handleGetWhatsappLinks fetch fuel req).1 = LinksResponse.notFound := by
  obtain ⟨f, rfl⟩ : ∃ f, fuel = f + 1 := ⟨fuel - 1, by omega⟩
  have htn : (0 : Nat) < (numLinksOf req.num_links).toNat := by omega
  have hcol : collectLoop fetch (orElseJs req.base_url defaultBaseUrl)
      (numLinksOf req.num_links).toNat (f + 1) [] 1 =
      (.done [], [pageUrl (orElseJs req.base_url defaultBaseUrl) 1]) :=
    collectLoop_no_cards _ _ _ f [] 1 d htn h2 h3
  have hgw : getWhatsappGroupLinks fetch
      (orElseJs req.base_url defaultBaseUrl)
      (numLinksOf req.num_links).toNat (f + 1) =
      (.done [], [pageUrl (orElseJs req.base_url defaultBaseUrl) 1]) := by
    simp [getWhatsappGroupLinks, hcol]
  refine ⟨by rw [hgw], ?_⟩
  have hne := orElseJs_default_ne req.base_url
  simp only [handleGetWhatsappLinks]
  rw [if_neg]
  · simp [hgw]
  · rintro (h | h)
    · exact hne h
    · omega

/-- Witness for C5: a site whose every page has zero cards, default
request parameters. -/
theorem c5_witness :
    (getWhatsappGroupLinks (fun _ => some ⟨[], none, []⟩)
        (orElseJs none defaultBaseUrl) (numLinksOf none).toNat 1).1 =
      RunResult.done [] ∧
    (handleGetWhatsappLinks (fun _ => some ⟨[], none, []⟩) 1
        ⟨none, none⟩).1 = LinksResponse.notFound :=
  c5_empty_first_page (fun _ => some ⟨[], none, []⟩) 1 ⟨none, none⟩
    ⟨[], none, []⟩ (by decide) (by decide) rfl rfl

/-- Claim C6, counterexample: the href `ftp://other.test/x` has a URI
scheme, so the spec's rule keeps it unchanged, but the code — which
tests `startsWith("http")` — joins it onto the base URL instead. -/
theorem c6_counterexample :
    specHasScheme "ftp://other.test/x" = true ∧
    specResolveHref "https://site.test/" "ftp://other.test/x" =
      "ftp://other.test/x" ∧
    resolveHref "https://site.test/" "ftp://other.test/x" =
      "https://site.test/ftp://other.test/x" ∧
    resolveHref "https://site.test/" "ftp://other.test/x" ≠
      specResolveHref "https://site.test/" "ftp://other.test/x" := by
  refine ⟨by decide, by decide, by decide, by decide⟩

/-- Claim C6, amended: an href that starts with `"http"` is used
unchanged; any other href — scheme or not — is joined to the base URL by
stripping one trailing slash from the base and one leading slash from
the href; in particular the spec's two examples hold. -/
theorem c6_resolve_href (baseUrl href : String) :
    (strStartsWith href "http" = true → resolveHref baseUrl href = href) ∧
    (strStartsWith href "http" = false →
      resolveHref baseUrl href =
        stripTrailingSlash baseUrl ++ "/" ++ stripLeadingSlash href) ∧
    resolveHref "https://site.test/" "/g/abc" = "https://site.test/g/abc" ∧
    resolveHref "https://site.test/" "http://other.test/x" =
      "http://other.test/x" := by
  refine ⟨?_, ?_, by decide, by decide⟩
  · intro h; simp [resolveHref, h]
  · intro h; simp [resolveHref, h]

/-- Witness for C6 at an absolute and a relative href. -/
theorem c6_witness :
    resolveHref "b" "http://x" = "http://x" ∧
    resolveHref "https://s.test/" "g" =
      stripTrailingSlash "https://s.test/" ++ "/" ++ stripLeadingSlash "g" :=
  ⟨(c6_resolve_href "b" "http://x").1 (by decide),
   (c6_resolve_href "https://s.test/" "g").2.1 (by decide)⟩

/-- Claim C8: if the home-page fetch (or parse) fails, `getCategories`
returns the empty sequence; in the embedding the function is total, so
no failure reaches its caller. -/
theorem c8_categories_fetch_failure (fetch : Fetch) (baseUrl : String)
    (h : fetch baseUrl = none) :
    getCategories fetch baseUrl = [] := by
  simp [getCategories, h]

/-- Witness for C8 with an always-failing fetch. -/
theorem c8_witness :
    getCategories (fun _ => none) "https://site.test" = [] :=
  c8_categories_fetch_failure (fun _ => none) "https://site.test" rfl

/-- Claim C10: a request whose `num_links` is absent, non-numeric, or
parses to `0` gets the default target `5` before validation, is not
rejected with 400, and behaves exactly like the same request with
`num_links = "5"`. -/
theorem c10_default_num_links (fetch : Fetch) (fuel : Nat)
    (req : LinksRequest)
    (h : req.num_links = none ∨
      ∃ s, req.num_links = some s ∧
        (parseIntJs s = none ∨ parseIntJs s = some 0)) :
    numLinksOf req.num_links = 5 ∧
    (handleGetWhatsappLinks fetch fuel req).1 ≠ LinksResponse.badRequest ∧
    handleGetWhatsappLinks fetch fuel req =
      handleGetWhatsappLinks fetch fuel
        { base_url := req.base_url, num_links := some "5" } := by
  have h5 : numLinksOf req.num_links = 5 := by
    rcases h with h | ⟨s, hs, hp | hp⟩
    · simp [numLinksOf, h]
    · simp [numLinksOf, hs, hp]
    · simp [numLinksOf, hs, hp]
  have h5' : numLinksOf (some "5") = 5 := by decide
  have hne := orElseJs_default_ne req.base_url
  refine ⟨h5, ?_, ?_⟩
  · simp only [handleGetWhatsappLinks, h5]
    rw [if_neg]
    · cases hr : (getWhatsappGroupLinks fetch
          (orElseJs req.base_url defaultBaseUrl) ((5 : Int)).toNat fuel).1
        with
      | done links =>
        simp only [hr]
        split <;> simp
      | outOfFuel links => simp [hr]
    · rintro (h | h)
      · exact hne h
      · omega
  · simp [handleGetWhatsappLinks, h5, h5']

/-- Witness for C10 at the non-numeric `num_links = "abc"`. -/
theorem c10_witness :
    numLinksOf (some "abc") = 5 ∧
    (handleGetWhatsappLinks (fun _ => none) 1
        { base_url := none, num_links := some "abc" }).1 ≠
      LinksResponse.badRequest ∧
    handleGetWhatsappLinks (fun _ => none) 1
        { base_url := none, num_links := some "abc" } =
      handleGetWhatsappLinks (fun _ => none) 1
        { base_url := none, num_links := some "5" } :=
  c10_default_num_links (fun _ => none) 1
    { base_url := none, num_links := some "abc" }
    (Or.inr ⟨"abc", rfl, Or.inl (by decide)⟩)

/-- Claim C2: the collector's result never exceeds the target, and on
any site whose pagination first ends at page `N` (with enough fuel to
reach it) the run terminates with exactly
`min target available_links` links, where `available_links` counts the
valid invite links of pages `1..N-1`. -/
theorem c2_collect_length (fetch : Fetch) (baseUrl : String)
    (target fuel : Nat) :
    (linksOf (getWhatsappGroupLinks fetch baseUrl target fuel).1).length ≤
      target ∧
    ∀ N, firstEndPage fetch baseUrl N → 0 < target → N ≤ fuel →
      (getWhatsappGroupLinks fetch baseUrl target fuel).1 =
        RunResult.done ((linksThrough fetch baseUrl (N - 1)).take target) ∧
      (linksOf (getWhatsappGroupLinks fetch baseUrl target fuel).1).length =
        min target (availableLinks fetch baseUrl N) := by
  constructor
  · have hb := collectLoop_le fetch baseUrl target fuel [] 1 (by simp)
    cases hr : (collectLoop fetch baseUrl target fuel [] 1).1 with
    | done l =>
      simp only [getWhatsappGroupLinks, hr, linksOf]
      rw [List.length_take]
      exact Nat.min_le_left _ _
    | outOfFuel l =>
      simp only [getWhatsappGroupLinks, hr, linksOf]
      rw [hr] at hb
      simpa [linksOf] using hb
  · intro N hN htarget hfuel
    have hrun := collectLoop_firstEnd fetch baseUrl target N hN fuel 1 []
      (le_refl 1) hN.1 (by omega) (by simp [linksThrough])
    have hgw : (getWhatsappGroupLinks fetch baseUrl target fuel).1 =
        RunResult.done ((linksThrough fetch baseUrl (N - 1)).take target) := by
      simp only [getWhatsappGroupLinks, hrun]
      rw [List.take_take, min_self]
    refine ⟨hgw, ?_⟩
    rw [hgw]
    simp only [linksOf]
    rw [List.length_take]
    rfl

/-- Witness for C2: a site with one two-card page (one valid invite, one
invalid), ending at page 2; target 5 yields exactly
`min 5 1 = 1` link. -/
theorem c2_witness :
    (linksOf (getWhatsappGroupLinks fetchC2 "https://w.test" 5 2).1).length
      ≤ 5 ∧
    (getWhatsappGroupLinks fetchC2 "https://w.test" 5 2).1 =
      RunResult.done
        ((linksThrough fetchC2 "https://w.test" (2 - 1)).take 5) ∧
    (linksOf (getWhatsappGroupLinks fetchC2 "https://w.test" 5 2).1).length
      = min 5 (availableLinks fetchC2 "https://w.test" 2) := by
  have h := c2_collect_length fetchC2 "https://w.test" 5 2
  have hend : firstEndPage fetchC2 "https://w.test" 2 :=
    ⟨by omega, by decide, by decide⟩
  have h2 := h.2 2 hend (by omega) (by omega)
  exact ⟨h.1, h2.1, h2.2⟩

/-- Claim C3: every link the collector returns contains the
invite-domain marker `"chat.whatsapp.com"`, and a card whose detail
page's call-to-action `data-url` lacks the marker contributes
nothing. -/
theorem c3_marker_invariant :
    (∀ (fetch : Fetch) (baseUrl : String) (target fuel : Nat)
        (link : String),
      link ∈ linksOf (getWhatsappGroupLinks fetch baseUrl target fuel).1 →
      strContains link "chat.whatsapp.com" = true) ∧
    (∀ (fetch : Fetch) (baseUrl : String) (card : Card) (href : String)
        (doc : Doc) (u : String),
      card.bodyHref = some href →
      fetch (resolveHref baseUrl href) = some doc →
      doc.ctaDataUrl = some u →
      strContains u "chat.whatsapp.com" = false →
      (processCard fetch baseUrl card).1 = none) := by
  constructor
  · intro fetch baseUrl target fuel link hmem
    cases hr : (collectLoop fetch baseUrl target fuel [] 1).1 with
    | done l =>
      simp only [getWhatsappGroupLinks, hr, linksOf] at hmem
      have hl : link ∈ l := List.take_subset _ _ hmem
      rcases collectLoop_mem_inv fetch baseUrl target fuel [] 1 link
          (by rw [hr]; exact hl) with h | h
      · simp at h
      · exact h
    | outOfFuel l =>
      simp only [getWhatsappGroupLinks, hr, linksOf] at hmem
      rcases collectLoop_mem_inv fetch baseUrl target fuel [] 1 link
          (by rw [hr]; exact hmem) with h | h
      · simp at h
      · exact h
  · intro fetch baseUrl card href doc u hh hf hc hm
    simp [processCard, hh, hf, hc, hm]

/-- Witness for C3: a collected link carries the marker; a marker-less
detail page contributes nothing. -/
theorem c3_witness :
    strContains "https://chat.whatsapp.com/ZZZ" "chat.whatsapp.com" =
      true ∧
    (processCard fetchC3 "https://w3.test" ⟨some "h"⟩).1 = none :=
  ⟨c3_marker_invariant.1 fetchC3 "https://w3.test" 1 2
      "https://chat.whatsapp.com/ZZZ" (by decide),
   c3_marker_invariant.2 fetchC3 "https://w3.test" ⟨some "h"⟩ "h" docC3bad
      "https://bad.test/x" rfl (by decide) rfl (by decide)⟩

/-- Claim C7: on a fetched home page, `getCategories` is exactly the
in-order filter of the anchors whose trimmed name and href are both
non-empty, each mapped once to its `{name, url}` pair. -/
theorem c7_categories_extraction (fetch : Fetch) (baseUrl : String)
    (doc : Doc) (h : fetch baseUrl = some doc) :
    getCategories fetch baseUrl =
      (doc.catAnchors.filter catKeep).map catOf := by
  simp [getCategories, h, catStep_fold]

/-- Witness for C7: of four anchors (valid; whitespace-only name; no
href; empty href) exactly the valid one survives, trimmed. -/
theorem c7_witness :
    getCategories fetchC7 "https://h.test" =
      [{ name := "Games", url := "/cat/games" }] := by
  rw [c7_categories_extraction fetchC7 "https://h.test" docC7 (by decide)]
  decide

/-- On the adversarial site the loop never accumulates anything and
never meets an end-of-pagination condition, so it consumes all fuel. -/
theorem badFetch_loop (target : Nat) (htarget : 0 < target) :
    ∀ (fuel p : Nat),
      (collectLoop badFetch "https://site.test" target fuel [] p).1 =
        RunResult.outOfFuel [] := by
  have hcard : cardLink badFetch "https://site.test" ⟨some "g"⟩ = none := by
    decide
  intro fuel
  induction fuel with
  | zero => intro p; rw [collectLoop_zero]
  | succ f ih =>
    intro p
    have hf : badFetch (pageUrl "https://site.test" p) = some badDoc := rfl
    have hz : badDoc.groupCards ≠ [] := by decide
    rw [collectLoop_step badFetch "https://site.test" target f [] p badDoc
      htarget hf hz]
    have hpc : (processCards badFetch "https://site.test" target []
        badDoc.groupCards).1 = [] := by
      have hcards : badDoc.groupCards = [⟨some "g"⟩] := rfl
      rw [hcards,
        processCards_cons badFetch "https://site.test" target []
          ⟨some "g"⟩ [] htarget,
        hcard]
      simp [pushLink, processCards_nil]
    rw [hpc]
    exact ih (p + 1)

/-- Claim C9: there is a fetch behaviour — every fetch succeeds, every
listing page has a group card, and no detail page's `data-url` carries
the invite-domain marker — under which the collector with any positive
target never terminates: every fuel bound is exhausted with an empty
accumulator. -/
theorem c9_unbounded_loop :
    (∀ url, badFetch url = some badDoc) ∧
    badDoc.groupCards ≠ [] ∧
    (∀ u, badDoc.ctaDataUrl = some u →
      strContains u "chat.whatsapp.com" = false) ∧
    ∀ (target fuel : Nat), 0 < target →
      (getWhatsappGroupLinks badFetch "https://site.test" target fuel).1 =
        RunResult.outOfFuel [] := by
  refine ⟨fun url => rfl, by decide, ?_, ?_⟩
  · intro u hu
    rw [show badDoc.ctaDataUrl = some "https://bad.test/x" from rfl] at hu
    cases hu
    decide
  · intro target fuel htarget
    have hloop := badFetch_loop target htarget fuel 1
    simp [getWhatsappGroupLinks, hloop]

/-- Witness for C9: with target 2 the adversarial site exhausts a fuel
budget of 7 pages with nothing collected. -/
theorem c9_witness :
    badFetch "u" = some badDoc ∧
    (getWhatsappGroupLinks badFetch "https://site.test" 2 7).1 =
      RunResult.outOfFuel [] :=
  ⟨c9_unbounded_loop.1 "u", c9_unbounded_loop.2.2.2 2 7 (by decide)⟩

end ApiWhatsapp
